import Mathlib

set_option maxHeartbeats 1000000

/- Verification development for `char_rbm/sampling.py`.

   The Python module is shallowly embedded below: floats become exact
   rationals, the mutable visible-bias array `model.intercept_visible_`
   becomes a function `Nat -> Rat` threaded explicitly, and fallible
   Python operations return `Except PyError`.  External collaborators
   (the trained model's `gibbs`/`_free_energy`, the codec, the random
   draws of numpy, and the two helpers `utils.softmax_and_sample` /
   `utils.vectors_from_txtfile` that live outside this module) are
   passed in as explicit parameters, exactly at the interface the
   source consumes them. -/

/-- Python runtime errors raised by the embedded code.  `badInitMethod`
    embeds the module's own `BadInitMethodException`. -/
inductive PyError where
  | zeroDivisionError
  | indexError
  | typeError
  | keyError
  | badInitMethod (msg : String)
  | assertionError (msg : String)
  | valueError (msg : String)
deriving DecidableEq

/-- Python true division `a / b`: raises `ZeroDivisionError` when `b = 0`. -/
def pydiv (a b : ℚ) : Except PyError ℚ :=
  if b = 0 then .error .zeroDivisionError else .ok (a / b)

/-- Python `l[k]` for a non-negative index `k`: raises `IndexError` out of range. -/
def pyGet (l : List ℤ) (k : ℕ) : Except PyError ℤ :=
  match l.get? k with
  | some x => .ok x
  | none => .error .indexError

/-- Python `l[-1]`: the last element, `IndexError` on an empty list. -/
def pyLast {α : Type} (l : List α) : Except PyError α :=
  match l.getLast? with
  | some x => .ok x
  | none => .error .indexError

/-- Pointwise update of a bias vector (represented as a function):
    `updIdx f i v` is the array `f` after the assignment `f[i] = v`. -/
def updIdx (f : ℕ → ℚ) (i : ℕ) (v : ℚ) : ℕ → ℚ :=
  fun k => if k = i then v else f k

/-- The codec interface consumed by `sampling.py` (external, spec section 6):
    `maxlen`, `nchars`, the filler symbol and the symbol-to-index dictionary.
    Dictionary lookup is partial (`KeyError` on absence), hence `Option`. -/
structure Codec where
  maxlen : ℕ
  nchars : ℕ
  filler : Char
  char_lookup : Char → Option ℕ

/-- The trained-model interface consumed by `sampling.py` (external, spec
    section 6).  `nvis` is `intercept_visible_.shape[0]` and `bias` its
    entries; `gibbs` receives the current bias vector explicitly because
    the source mutates `intercept_visible_` (via `shrink_model`) and the
    transition operator reads it. `decode` is
    `codec.decode(v, pretty=True, strict=False)` on one row and
    `free_energy` is `model._free_energy` on a batch. -/
structure PModel where
  codec : Codec
  nvis : ℕ
  bias : ℕ → ℚ
  gibbs : (ℕ → ℚ) → List (List ℚ) → ℚ → List (List ℚ)
  decode : List ℚ → String
  free_energy : List (List ℚ) → List ℚ

/-- `BIG_NUMBER = 3.0` from the source. -/
def BIG_NUMBER : ℚ := 3

/-- `shrink_model.__enter__`, the part that saves
    `self.prev_biases = [model.intercept_visible_[nchars * posn + padidx] for posn in range(maxlen)]`
    before any mutation. -/
def shrinkPrevBiases (nchars padidx maxlen : ℕ) (bias : ℕ → ℚ) : List ℚ :=
  (List.range maxlen).map (fun posn => bias (nchars * posn + padidx))

/-- `shrink_model.__enter__`, the mutation part: for `posn in range(min_length)`
    do `intercept_visible_[nchars * posn + padidx] += -1 * BIG_NUMBER`, then for
    `posn in range(max_length, maxlen)` do `... += BIG_NUMBER`. -/
def shrinkEnterBias (nchars padidx minL maxL maxlen : ℕ) (bias : ℕ → ℚ) : ℕ → ℚ :=
  let b1 := (List.range minL).foldl
    (fun b posn => updIdx b (nchars * posn + padidx)
      (b (nchars * posn + padidx) + -1 * BIG_NUMBER)) bias
  (List.range' maxL (maxlen - maxL)).foldl
    (fun b posn => updIdx b (nchars * posn + padidx)
      (b (nchars * posn + padidx) + BIG_NUMBER)) b1

/-- `shrink_model.__exit__`: for `posn, bias in enumerate(self.prev_biases)`
    do `intercept_visible_[nchars * posn + padidx] = bias`.  The argument
    `bias` here is whatever bias vector the model holds when the scope
    exits (Python calls `__exit__` both on normal and on exceptional exit,
    and the sampling loop run inside the scope may itself have been
    interrupted at any point). -/
def shrinkExitBias (nchars padidx : ℕ) (prev_biases : List ℚ) (bias : ℕ → ℚ) : ℕ → ℚ :=
  prev_biases.enum.foldl (fun b pb => updIdx b (nchars * pb.1 + padidx) pb.2) bias

/-- The `VisInit` enum of visible-unit initialization strategies. -/
inductive VisInit where
  | zeros
  | biases
  | uniform
  | spaces
  | padding
  | train
  | chunks
  | silhouettes
  | uniform_chars
deriving DecidableEq

/-- One row of `np.eye(nchars)` (also the pattern written by
    `vis[:, :, fill] = 1` into a zeroed position slice). -/
def onehot (nchars fill : ℕ) : List ℚ :=
  (List.range nchars).map (fun j => if j = fill then 1 else 0)

/-- External inputs of `starting_visible_configs`: the numpy random draws,
    made explicit, and the two helpers from the `utils` module, which is
    not part of this file's source.

    Modelled from the spec: `softmax_and_sample` (spec 4.3 `biases`:
    per-position softmax of the bias groups, one sampled one-hot
    character per position, shape-preserving) and `vectors_from_txtfile`
    (spec section 6 `load(path, codec, limit, mutagen) -> VisibleState`:
    already codec-encoded training rows) are external to
    `sampling.py`; they appear here as opaque parameters, with their
    spec-level shape contracts taken as hypotheses in the theorems.

    `randint01 r k` is `np.random.randint(0, 2, vis_shape)` at row `r`,
    flat column `k`; `randchars r p` is `np.random.randint(0, nchars, (n, maxlen))`
    at row `r`, position `p` (values in `[0, nchars)`); `lengths r` is the
    clipped-normal integer length drawn for row `r` in the `chunks`
    strategy (values in `[1, maxlen]`). -/
structure InitEnv where
  softmax_and_sample : List (List (List ℚ)) → List (List (List ℚ))
  randint01 : ℕ → ℕ → ℚ
  randchars : ℕ → ℕ → ℕ
  lengths : ℕ → ℕ
  vectors_from_txtfile : String → ℕ → Bool → List (List ℚ)

/-- `starting_visible_configs(init_method, n, model, training_examples_fname)`.
    A batch is a list of `n` rows, each a flattened `(maxlen, nchars)`
    one-hot matrix of length `maxlen * nchars` (`vis_shape`). -/
def starting_visible_configs (env : InitEnv) (init_method : VisInit) (n : ℕ)
    (model : PModel) (training_examples_fname : Option String) :
    Except PyError (List (List ℚ)) :=
  let maxlen := model.codec.maxlen
  let nchars := model.codec.nchars
  match init_method with
  | .biases =>
      let tiled := List.replicate n
        ((List.range maxlen).map (fun p =>
          (List.range nchars).map (fun c => model.bias (nchars * p + c))))
      .ok ((env.softmax_and_sample tiled).map List.flatten)
  | .zeros =>
      .ok (List.replicate n (List.replicate model.nvis 0))
  | .uniform =>
      .ok ((List.range n).map (fun r =>
        (List.range model.nvis).map (fun k => env.randint01 r k)))
  | .spaces | .padding =>
      let fillchar := if init_method = VisInit.spaces then ' ' else model.codec.filler
      match model.codec.char_lookup fillchar with
      | none => .error (.badInitMethod (fillchar.toString ++ " is not in model alphabet"))
      | some fill =>
          .ok (List.replicate n
            (List.flatten ((List.range maxlen).map (fun _ => onehot nchars fill))))
  | .train | .silhouettes =>
      match training_examples_fname with
      | none => .error (.assertionError "No training examples provided to initialize with")
      | some fname =>
          .ok (env.vectors_from_txtfile fname n (init_method = VisInit.silhouettes))
  | .chunks =>
      match model.codec.char_lookup model.codec.filler with
      | none => .error .keyError
      | some fill =>
          .ok ((List.range n).map (fun r =>
            List.flatten ((List.range maxlen).map (fun p =>
              onehot nchars (if env.lengths r ≤ p then fill else env.randchars r p)))))
  | .uniform_chars =>
      .ok ((List.range n).map (fun r =>
        List.flatten ((List.range maxlen).map (fun p =>
          onehot nchars (env.randchars r p)))))

/-- `print_sample_callback(sample_strings, i, energy=None, logger=None)`.
    When `energy is None`, the source takes the branch
    `text = "".join(fmt(t) for t in zip(sample_strings, energy))`, whose
    `zip(sample_strings, None)` raises `TypeError` (None is not iterable);
    otherwise it takes `text = "".join(sample_strings)`.  The `logger`
    branch only performs logging I/O and never changes the returned text. -/
def print_sample_callback (sample_strings : List String) (i : ℤ)
    (energy : Option (List ℚ)) (logger : Option Unit) : Except PyError String :=
  match energy, i, logger with
  | none, _, _ => .error .typeError
  | some _, _, _ => .ok (String.join sample_strings)

/-- A Python callable usable as the sampling callback.  `fn` is an
    ordinary callback of signature `(sample_strings, i, energy=None)`;
    `zeroArg` is the replacement `lambda: None` that `sample_model`
    installs when `callback is None`. -/
inductive PyCallback where
  | fn (f : List String → ℤ → Option (List ℚ) → Except PyError String)
  | zeroArg

/-- Calling a `PyCallback` with the positional arguments the loop passes:
    the zero-argument `lambda: None` raises `TypeError` when called with
    `(sample_strings, i)` or `(sample_strings, i, energy)`. -/
def callCallback (cb : PyCallback) (sample_strings : List String) (i : ℤ)
    (energy : Option (List ℚ)) : Except PyError String :=
  match cb with
  | .fn f => f sample_strings i energy
  | .zeroArg => .error .typeError

/-- The module-level flag `LINEAR_ANNEAL = 0`.  The loop below takes the
    flag as an explicit parameter so both policies can be reasoned about;
    this constant is the source's process-wide default. -/
def LINEAR_ANNEAL : Bool := false

/-- The per-iteration temperature update at the bottom of the loop body:
    `temp += temp_delta` under `LINEAR_ANNEAL`, else `temp *= temp_decay`. -/
def temp_update (linear_anneal : Bool) (temp_decay temp_delta temp : ℚ) : ℚ :=
  if linear_anneal then temp + temp_delta else temp * temp_decay

/-- The mutable locals of `_sample_model`'s loop. -/
structure LoopState where
  vis : List (List ℚ)
  temp : ℚ
  next_sample_metaindex : ℕ
  samples : List (List String)

/-- The tail of the loop body: `vis = model.gibbs(vis, temp)` followed by
    the temperature update. -/
def gibbsStep (model : PModel) (linear_anneal : Bool) (temp_decay temp_delta : ℚ)
    (st : LoopState) : LoopState :=
  { st with
    vis := model.gibbs model.bias st.vis st.temp
    temp := temp_update linear_anneal temp_decay temp_delta st.temp }

/-- One iteration of `_sample_model`'s `for i in range(iters)` body at
    index `i`.  Returns `(broke, state)`: `broke = true` models the
    `break` taken when the last checkpoint has just been recorded. -/
def loopBody (model : PModel) (cb : PyCallback) (sample_iter_indices : List ℤ)
    (sample_energy linear_anneal : Bool) (temp_decay temp_delta : ℚ)
    (i : ℤ) (st : LoopState) : Except PyError (Bool × LoopState) := do
  let idx ← pyGet sample_iter_indices st.next_sample_metaindex
  if i = idx then
    let sample_strings := st.vis.map model.decode
    let _sample ← callCallback cb sample_strings i
      (if sample_energy then some (model.free_energy st.vis) else none)
    let st1 : LoopState :=
      { st with
        samples := st.samples ++ [sample_strings]
        next_sample_metaindex := st.next_sample_metaindex + 1 }
    if st1.next_sample_metaindex = sample_iter_indices.length then
      .ok (true, st1)
    else
      .ok (false, gibbsStep model linear_anneal temp_decay temp_delta st1)
  else
    .ok (false, gibbsStep model linear_anneal temp_decay temp_delta st)

/-- The loop `for i in range(iters)` of `_sample_model`, as a recursion on
    the remaining iteration count (`fuel`), with `i` the current index. -/
def sampleLoop (model : PModel) (cb : PyCallback) (sample_iter_indices : List ℤ)
    (sample_energy linear_anneal : Bool) (temp_decay temp_delta : ℚ) :
    ℕ → ℤ → LoopState → Except PyError LoopState
  | 0, _, st => .ok st
  | fuel + 1, i, st => do
      let (broke, st1) ← loopBody model cb sample_iter_indices sample_energy
        linear_anneal temp_decay temp_delta i st
      if broke then .ok st1
      else
        sampleLoop model cb sample_iter_indices sample_energy linear_anneal
          temp_decay temp_delta fuel (i + 1) st1

/-- `_sample_model(model, vis, iters, sample_iter_indices, start_temp,
    final_temp, callback, sample_energy)`.  `powf` embeds the float power
    `x ** y` used once to form `temp_decay = (final_temp/start_temp) ** (1/iters)`
    (the real-valued power has no exact rational counterpart, so it is a
    parameter; both of its arguments are computed exactly, including the
    two divisions, which raise `ZeroDivisionError` exactly as in Python).
    `linear_anneal` is the module flag `LINEAR_ANNEAL`. -/
def _sample_model (powf : ℚ → ℚ → ℚ) (linear_anneal : Bool) (model : PModel)
    (vis : List (List ℚ)) (iters : ℤ) (sample_iter_indices : List ℤ)
    (start_temp final_temp : ℚ) (callback : PyCallback) (sample_energy : Bool) :
    Except PyError (List (List ℚ) × List String) := do
  let frac ← pydiv final_temp start_temp
  let invIters ← pydiv 1 (iters : ℚ)
  let temp_decay := powf frac invIters
  let temp_delta ← pydiv (final_temp - start_temp) (iters : ℚ)
  let stf ← sampleLoop model callback sample_iter_indices sample_energy
    linear_anneal temp_decay temp_delta iters.toNat 0
    ⟨vis, start_temp, 0, []⟩
  let last ← pyLast stf.samples
  .ok (stf.vis, last)

/-- `sample_model(model, n, iters, sample_iter_indices, ...)`: installs
    `lambda: None` when `callback is None`, builds the starting visible
    configurations unless `starting_vis` is given, and runs
    `_sample_model`, inside a `shrink_model` scope when
    `min_length or max_length` is truthy (nonzero).  The scope's
    `__init__` asserts its length bounds; `__enter__` mutates the bias
    vector seen by the loop; `__exit__` restores it after the loop's
    result (or exception) is already determined, so it does not appear in
    the returned value.  The `utils.timeit` decorator only measures wall
    time and is dropped. -/
def sample_model (powf : ℚ → ℚ → ℚ) (linear_anneal : Bool) (env : InitEnv)
    (model : PModel) (n : ℕ) (iters : ℤ) (sample_iter_indices : List ℤ)
    (start_temp final_temp : ℚ) (callback : Option PyCallback)
    (init_method : VisInit) (training_examples : Option String)
    (sample_energy : Bool) (starting_vis : Option (List (List ℚ)))
    (min_length max_length : ℕ) : Except PyError (List (List ℚ) × List String) := do
  let cb := match callback with
    | none => PyCallback.zeroArg
    | some c => c
  let vis ← match starting_vis with
    | some v => Except.ok v
    | none => starting_visible_configs env init_method n model training_examples
  if min_length ≠ 0 ∨ max_length ≠ 0 then
    let maxL := if max_length = 0 then model.codec.maxlen else max_length
    if 1 ≤ maxL ∧ maxL ≤ model.codec.maxlen ∧ min_length ≤ model.codec.maxlen then
      match model.codec.char_lookup model.codec.filler with
      | none => .error .keyError
      | some padidx =>
          let model' := { model with
            bias := shrinkEnterBias model.codec.nchars padidx min_length maxL
              model.codec.maxlen model.bias }
          _sample_model powf linear_anneal model' vis iters sample_iter_indices
            start_temp final_temp cb sample_energy
    else .error (.assertionError "length bounds")
  else
    _sample_model powf linear_anneal model vis iters sample_iter_indices
      start_temp final_temp cb sample_energy

/-- A small concrete model used by the closed witness theorems: a
    2-position, 2-character codec with filler 'b' at index 1, a transition
    operator that increments every entry, and a constant decoder. -/
def mmW : PModel where
  codec :=
    { maxlen := 2
      nchars := 2
      filler := 'b'
      char_lookup := fun c => if c = ' ' then some 1 else if c = 'b' then some 1 else none }
  nvis := 4
  bias := fun _ => 0
  gibbs := fun _ vis _ => vis.map (fun row => row.map (fun x => x + 1))
  decode := fun _ => "d"
  free_energy := fun vis => vis.map (fun _ => 0)

/-- A concrete environment of external inputs for the witness theorems. -/
def envW : InitEnv where
  softmax_and_sample := fun t => t
  randint01 := fun _ _ => 0
  randchars := fun _ _ => 0
  lengths := fun _ => 1
  vectors_from_txtfile := fun _ limit _ => List.replicate limit (List.replicate 4 0)

/-- A concrete model whose codec alphabet is empty (every dictionary lookup
    misses), used to witness the missing-fill-symbol error paths. -/
def emptyCodecModel : PModel where
  codec := { maxlen := 2, nchars := 2, filler := 'z', char_lookup := fun _ => none }
  nvis := 4
  bias := fun _ => 0
  gibbs := fun _ vis _ => vis
  decode := fun _ => ""
  free_energy := fun _ => []

/-! ### Helper lemmas about pointwise updates and folds over index lists -/

lemma updIdx_same (f : ℕ → ℚ) (i : ℕ) (v : ℚ) : updIdx f i v i = v := by
  simp [updIdx]

lemma updIdx_ne (f : ℕ → ℚ) (i : ℕ) (v : ℚ) (k : ℕ) (h : k ≠ i) :
    updIdx f i v k = f k := by
  simp [updIdx, h]

lemma foldl_bump_not_mem (idx : ℕ → ℕ) (c : ℚ) (l : List ℕ) :
    ∀ (b : ℕ → ℚ) (k : ℕ), (∀ p ∈ l, idx p ≠ k) →
      l.foldl (fun acc p => updIdx acc (idx p) (acc (idx p) + c)) b k = b k := by
  induction l with
  | nil => intro b k _; rfl
  | cons a t ih =>
    intro b k h
    have ha : idx a ≠ k := h a (List.mem_cons_self a t)
    have ht : ∀ p ∈ t, idx p ≠ k := fun p hp => h p (List.mem_cons_of_mem a hp)
    rw [List.foldl_cons, ih _ k ht, updIdx_ne _ _ _ _ (Ne.symm ha)]

lemma foldl_bump_mem (idx : ℕ → ℕ) (c : ℚ) (l : List ℕ) :
    ∀ (b : ℕ → ℚ) (p : ℕ), p ∈ l → l.Pairwise (fun x y => idx x ≠ idx y) →
      l.foldl (fun acc q => updIdx acc (idx q) (acc (idx q) + c)) b (idx p)
        = b (idx p) + c := by
  induction l with
  | nil => intro b p hp; cases hp
  | cons a t ih =>
    intro b p hp hpw
    rw [List.foldl_cons]
    rcases List.pairwise_cons.mp hpw with ⟨hat, htw⟩
    rcases List.mem_cons.mp hp with rfl | hpt
    · have hnone : ∀ q ∈ t, idx q ≠ idx p := fun q hq => (hat q hq).symm
      rw [foldl_bump_not_mem idx c t _ (idx p) hnone, updIdx_same]
    · have hne : idx a ≠ idx p := hat p hpt
      rw [ih _ p hpt htw, updIdx_ne _ _ _ _ (Ne.symm hne)]

lemma foldl_set_not_mem (idx : ℕ → ℕ) (v : ℕ → ℚ) (l : List ℕ) :
    ∀ (b : ℕ → ℚ) (k : ℕ), (∀ p ∈ l, idx p ≠ k) →
      l.foldl (fun acc q => updIdx acc (idx q) (v q)) b k = b k := by
  induction l with
  | nil => intro b k _; rfl
  | cons a t ih =>
    intro b k h
    have ha : idx a ≠ k := h a (List.mem_cons_self a t)
    have ht : ∀ p ∈ t, idx p ≠ k := fun p hp => h p (List.mem_cons_of_mem a hp)
    rw [List.foldl_cons, ih _ k ht, updIdx_ne _ _ _ _ (Ne.symm ha)]

lemma foldl_set_hit (idx : ℕ → ℕ) (v : ℕ → ℚ) (l : List ℕ) :
    ∀ (b : ℕ → ℚ) (k : ℕ) (w : ℚ), (∃ p ∈ l, idx p = k) →
      (∀ p ∈ l, idx p = k → v p = w) →
      l.foldl (fun acc q => updIdx acc (idx q) (v q)) b k = w := by
  induction l with
  | nil =>
    rintro b k w ⟨p, hp, -⟩ _
    cases hp
  | cons a t ih =>
    intro b k w hex hall
    rw [List.foldl_cons]
    by_cases hht : ∃ p ∈ t, idx p = k
    · exact ih _ k w hht (fun p hp hpk => hall p (List.mem_cons_of_mem a hp) hpk)
    · rcases hex with ⟨p, hp, hpk⟩
      rcases List.mem_cons.mp hp with rfl | hpt
      · have hnot : ∀ q ∈ t, idx q ≠ k := fun q hq hqk => hht ⟨q, hq, hqk⟩
        rw [foldl_set_not_mem idx v t _ k hnot]
        subst hpk
        rw [updIdx_same]
        exact hall p (List.mem_cons_self p t) rfl
      · exact absurd ⟨p, hpt, hpk⟩ hht

/-- `__exit__`'s fold over `enumerate(prev_biases)`, rewritten as a fold over
    the position range when `prev_biases` was produced by `__enter__`. -/
lemma shrinkExitBias_eq_fold (nchars padidx maxlen : ℕ) (bias0 after : ℕ → ℚ) :
    shrinkExitBias nchars padidx (shrinkPrevBiases nchars padidx maxlen bias0) after =
      (List.range maxlen).foldl
        (fun b posn => updIdx b (nchars * posn + padidx)
          (bias0 (nchars * posn + padidx))) after := by
  unfold shrinkExitBias shrinkPrevBiases
  rw [List.enum_eq_zip_range, List.length_map, List.length_range]
  have hzip := List.zip_map' id (fun posn => bias0 (nchars * posn + padidx))
    (List.range maxlen)
  simp only [List.map_id, id_eq] at hzip
  rw [hzip, List.foldl_map]

/-- C1: for every valid pair `(min_length, max_length)` (the bounds asserted
by `shrink_model.__init__`), and for every bias state `after` the model holds
at the moment the scope exits — which covers a normal exit, an exit caused by
an exception raised anywhere inside the scope, and arbitrary mutations the
scope body performed — `shrink_model.__exit__` restores the padding-symbol
bias entry at every position `posn < maxlen` to its exact pre-entry value.
The second conjunct instantiates this to the state left by `__enter__`. -/
theorem C1_shrink_exit_restores_padding_bias
    (nchars padidx minL maxL maxlen : ℕ) (bias after : ℕ → ℚ) (posn : ℕ)
    (h1 : 1 ≤ maxL) (h2 : maxL ≤ maxlen) (h3 : minL ≤ maxlen) (hp : posn < maxlen) :
    shrinkExitBias nchars padidx (shrinkPrevBiases nchars padidx maxlen bias) after
        (nchars * posn + padidx) = bias (nchars * posn + padidx) ∧
    shrinkExitBias nchars padidx (shrinkPrevBiases nchars padidx maxlen bias)
        (shrinkEnterBias nchars padidx minL maxL maxlen bias)
        (nchars * posn + padidx) = bias (nchars * posn + padidx) := by
  have key : ∀ b : ℕ → ℚ,
      shrinkExitBias nchars padidx (shrinkPrevBiases nchars padidx maxlen bias) b
        (nchars * posn + padidx) = bias (nchars * posn + padidx) := by
    intro b
    rw [shrinkExitBias_eq_fold]
    exact foldl_set_hit (fun q => nchars * q + padidx)
      (fun q => bias (nchars * q + padidx)) (List.range maxlen) b
      (nchars * posn + padidx) (bias (nchars * posn + padidx))
      ⟨posn, List.mem_range.mpr hp, rfl⟩
      (fun q _ hqk => by
        show bias (nchars * q + padidx) = bias (nchars * posn + padidx)
        rw [show nchars * q + padidx = nchars * posn + padidx from hqk])
  exact ⟨key after, key _⟩

/-- Closed witness for C1 at `nchars = 2`, `padidx = 1`, `min_length = 1`,
`max_length = 2`, `maxlen = 3`, with an arbitrary mutated state on exit. -/
theorem C1_witness :
    shrinkExitBias 2 1 (shrinkPrevBiases 2 1 3 (fun k => (k : ℚ))) (fun _ => 99)
        (2 * 2 + 1) = ((2 * 2 + 1 : ℕ) : ℚ) ∧
    shrinkExitBias 2 1 (shrinkPrevBiases 2 1 3 (fun k => (k : ℚ)))
        (shrinkEnterBias 2 1 1 2 3 (fun k => (k : ℚ)))
        (2 * 2 + 1) = ((2 * 2 + 1 : ℕ) : ℚ) :=
  C1_shrink_exit_restores_padding_bias 2 1 1 2 3 (fun k => (k : ℚ)) (fun _ => 99) 2
    (by decide) (by decide) (by decide) (by decide)

/-- C3: on entry to a `shrink_model` scope with valid bounds
(`min_length <= max_length <= maxlen`, padding index below `nchars`),
the padding-symbol bias is decreased by exactly `BIG_NUMBER` at every
position below `min_length`, increased by exactly `BIG_NUMBER` at every
position in `[max_length, maxlen)`, left unchanged at every position in
`[min_length, max_length)`, and every entry whose index does not belong
to the padding symbol (its residue mod `nchars` differs from the padding
index) is unmodified. -/
theorem C3_shrink_enter_bias_adjustment
    (nchars padidx minL maxL maxlen : ℕ) (bias : ℕ → ℚ)
    (hpad : padidx < nchars) (hmin : minL ≤ maxL) (hmax : maxL ≤ maxlen) :
    (∀ posn, posn < minL →
      shrinkEnterBias nchars padidx minL maxL maxlen bias (nchars * posn + padidx)
        = bias (nchars * posn + padidx) - BIG_NUMBER) ∧
    (∀ posn, maxL ≤ posn → posn < maxlen →
      shrinkEnterBias nchars padidx minL maxL maxlen bias (nchars * posn + padidx)
        = bias (nchars * posn + padidx) + BIG_NUMBER) ∧
    (∀ posn, minL ≤ posn → posn < maxL →
      shrinkEnterBias nchars padidx minL maxL maxlen bias (nchars * posn + padidx)
        = bias (nchars * posn + padidx)) ∧
    (∀ k, k % nchars ≠ padidx →
      shrinkEnterBias nchars padidx minL maxL maxlen bias k = bias k) := by
  have hnpos : 0 < nchars := lt_of_le_of_lt (Nat.zero_le padidx) hpad
  have hinj : ∀ a b : ℕ, nchars * a + padidx = nchars * b + padidx → a = b := by
    intro a b h
    exact Nat.eq_of_mul_eq_mul_left hnpos (Nat.add_right_cancel h)
  have hpw1 : (List.range minL).Pairwise
      (fun x y => nchars * x + padidx ≠ nchars * y + padidx) :=
    (List.nodup_range minL).imp (fun hxy h => hxy (hinj _ _ h))
  have hpw2 : (List.range' maxL (maxlen - maxL)).Pairwise
      (fun x y => nchars * x + padidx ≠ nchars * y + padidx) :=
    (List.nodup_range' maxL (maxlen - maxL)).imp (fun hxy h => hxy (hinj _ _ h))
  have hmod : ∀ q : ℕ, (nchars * q + padidx) % nchars = padidx := by
    intro q
    rw [Nat.mul_add_mod, Nat.mod_eq_of_lt hpad]
  refine ⟨?_, ?_, ?_, ?_⟩
  · intro posn hlt
    unfold shrinkEnterBias
    rw [foldl_bump_not_mem (fun q => nchars * q + padidx) BIG_NUMBER
      (List.range' maxL (maxlen - maxL)) _ (nchars * posn + padidx)
      (fun q hq h => by
        have hq1 := (List.mem_range'_1.mp hq).1
        have : q = posn := hinj _ _ h
        omega),
      foldl_bump_mem (fun q => nchars * q + padidx) (-1 * BIG_NUMBER)
        (List.range minL) bias posn (List.mem_range.mpr hlt) hpw1]
    ring
  · intro posn hge hlt
    unfold shrinkEnterBias
    rw [foldl_bump_mem (fun q => nchars * q + padidx) BIG_NUMBER
        (List.range' maxL (maxlen - maxL)) _ posn
        (List.mem_range'_1.mpr (by omega)) hpw2,
      foldl_bump_not_mem (fun q => nchars * q + padidx) (-1 * BIG_NUMBER)
        (List.range minL) bias (nchars * posn + padidx)
        (fun q hq h => by
          have hq1 := List.mem_range.mp hq
          have : q = posn := hinj _ _ h
          omega)]
  · intro posn hge hlt
    unfold shrinkEnterBias
    rw [foldl_bump_not_mem (fun q => nchars * q + padidx) BIG_NUMBER
        (List.range' maxL (maxlen - maxL)) _ (nchars * posn + padidx)
        (fun q hq h => by
          have hq1 := (List.mem_range'_1.mp hq).1
          have : q = posn := hinj _ _ h
          omega),
      foldl_bump_not_mem (fun q => nchars * q + padidx) (-1 * BIG_NUMBER)
        (List.range minL) bias (nchars * posn + padidx)
        (fun q hq h => by
          have hq1 := List.mem_range.mp hq
          have : q = posn := hinj _ _ h
          omega)]
  · intro k hk
    unfold shrinkEnterBias
    rw [foldl_bump_not_mem (fun q => nchars * q + padidx) BIG_NUMBER
        (List.range' maxL (maxlen - maxL)) _ k
        (fun q _ h => hk (by rw [← h, hmod q])),
      foldl_bump_not_mem (fun q => nchars * q + padidx) (-1 * BIG_NUMBER)
        (List.range minL) bias k
        (fun q _ h => hk (by rw [← h, hmod q]))]

/-- Closed witness for C3: the spec's worked example with `min_length = 2`,
`max_length = 3` on `maxlen = 5` (alphabet of 4 symbols, padding index 3,
all biases 0): positions 0 and 1 drop by `BIG_NUMBER`, positions 3 and 4
rise by `BIG_NUMBER`, position 2 and a non-padding entry are unchanged. -/
theorem C3_witness :
    shrinkEnterBias 4 3 2 3 5 (fun _ => 0) (4 * 0 + 3) = (0 : ℚ) - BIG_NUMBER ∧
    shrinkEnterBias 4 3 2 3 5 (fun _ => 0) (4 * 4 + 3) = (0 : ℚ) + BIG_NUMBER ∧
    shrinkEnterBias 4 3 2 3 5 (fun _ => 0) (4 * 2 + 3) = (0 : ℚ) ∧
    shrinkEnterBias 4 3 2 3 5 (fun _ => 0) 0 = (0 : ℚ) :=
  ⟨(C3_shrink_enter_bias_adjustment 4 3 2 3 5 (fun _ => 0) (by decide) (by decide)
      (by decide)).1 0 (by decide),
   (C3_shrink_enter_bias_adjustment 4 3 2 3 5 (fun _ => 0) (by decide) (by decide)
      (by decide)).2.1 4 (by decide) (by decide),
   (C3_shrink_enter_bias_adjustment 4 3 2 3 5 (fun _ => 0) (by decide) (by decide)
      (by decide)).2.2.1 2 (by decide) (by decide),
   (C3_shrink_enter_bias_adjustment 4 3 2 3 5 (fun _ => 0) (by decide) (by decide)
      (by decide)).2.2.2 0 (by decide)⟩

/-- C4: evaluation of `print_sample_callback` at the failing input: with
`energy=None` the source enters the branch that zips the strings with
`None` and raises `TypeError` (the claim expects the plain concatenation
`"ab"` and no exception), and with energies supplied it returns the bare
concatenation with no formatted energies (the claim expects each string
paired with its energy to two decimals).  The `if energy is None` test in
the source selects the two branches the wrong way around. -/
theorem C4_print_sample_callback_inverted :
    print_sample_callback ["ab"] 0 none none = .error .typeError ∧
    print_sample_callback ["ab", "cd"] 0 (some [1, 2]) none = .ok "abcd" :=
  ⟨rfl, rfl⟩

/-- C5: evaluation of `sample_model` with `callback=None` at a run that
reaches a checkpoint (`iters=1`, `sample_iter_indices=[0]`): the installed
replacement `lambda: None` accepts no positional arguments, so the call
`callback(sample_strings, i)` at the checkpoint raises `TypeError` for
every model and starting state — recording is not a no-op and the decoded
strings are never returned. -/
theorem C5_none_callback_raises_typeerror (powf : ℚ → ℚ → ℚ)
    (linear_anneal : Bool) (env : InitEnv) (model : PModel)
    (v0 : List (List ℚ)) :
    sample_model powf linear_anneal env model 0 1 [0] 1 1 none VisInit.biases
      none false (some v0) 0 0 = .error .typeError := rfl

/-- C6 (counterexample): at `iters = 0` (with `sample_iter_indices = [0]`,
`start_temp = final_temp = 1`) the call is not rejected by any explicit
configuration check: it reaches the division `1 / iters` inside the
schedule computation and the result is `ZeroDivisionError`. -/
theorem C6_counterexample :
    _sample_model (fun _ _ => 1) false mmW [[0, 0, 0, 0]] 0 [0] 1 1
      (PyCallback.fn (fun s _ _ => .ok (String.join s))) false
      = .error .zeroDivisionError := rfl

/-- C6 (amended): the code performs no explicit `iters <= 0` configuration
check.  For `iters = 0` (and `start_temp` nonzero, so the preceding
division `final_temp / start_temp` succeeds) the schedule computation
itself raises `ZeroDivisionError` at `1 / iters`; for `iters < 0` the
schedule computes without error, the loop body never runs, and the call
fails with `IndexError` taking `samples[-1]` of the empty sample list. -/
theorem C6_iters_nonpositive_behavior (powf : ℚ → ℚ → ℚ)
    (linear_anneal : Bool) (model : PModel) (vis : List (List ℚ))
    (iters : ℤ) (sample_iter_indices : List ℤ) (start_temp final_temp : ℚ)
    (cb : PyCallback) (sample_energy : Bool) (hs : start_temp ≠ 0) :
    (iters = 0 → _sample_model powf linear_anneal model vis iters
      sample_iter_indices start_temp final_temp cb sample_energy
        = .error .zeroDivisionError) ∧
    (iters < 0 → _sample_model powf linear_anneal model vis iters
      sample_iter_indices start_temp final_temp cb sample_energy
        = .error .indexError) := by
  constructor
  · rintro rfl
    simp [_sample_model, pydiv, hs, Except.instMonad, Except.bind, Bind.bind]
  · intro hneg
    have h0 : ((iters : ℚ)) ≠ 0 := by
      simpa using (by omega : iters ≠ 0)
    have htn : iters.toNat = 0 := Int.toNat_of_nonpos (le_of_lt hneg)
    simp [_sample_model, pydiv, hs, h0, htn, sampleLoop, pyLast,
      Except.instMonad, Except.bind, Bind.bind]

/-- Closed witness for the amended C6 at `iters = -1`. -/
theorem C6_witness :
    _sample_model (fun _ _ => 1) false mmW [[0, 0, 0, 0]] (-1) [0] 1 1
      PyCallback.zeroArg false = .error .indexError :=
  (C6_iters_nonpositive_behavior (fun _ _ => 1) false mmW [[0, 0, 0, 0]] (-1)
    [0] 1 1 PyCallback.zeroArg false (by norm_num)).2 (by norm_num)

/-- C2: the checkpoint semantics of `_sample_model` on the spec's scenario
shape — `iters = 3`, `sample_iter_indices = [2]`, `start_temp = final_temp
= 1` — for an arbitrary model, starting batch and callback function (the
hypothesis pins the float power `1 ** (1/3)` to its exact value 1).
Iterations 0 and 1 are not checkpoints and apply the transition operator;
at iteration 2 the pre-transition state is decoded and recorded, and since
`[2]` is then exhausted the loop breaks without applying that iteration's
transition.  The loop records exactly one sample batch (the internal
`samples` list is the singleton), and `_sample_model` returns the
post-iteration-2 pre-transition state paired with the most recently
recorded batch rather than any history. -/
theorem C2_checkpoint_loop_semantics (model : PModel) (v0 : List (List ℚ))
    (powf : ℚ → ℚ → ℚ) (f : List String → ℤ → Option (List ℚ) → String)
    (hpow : powf 1 (1 / 3) = 1) :
    sampleLoop model (PyCallback.fn (fun s i e => .ok (f s i e))) [2] false false
        (powf 1 (1 / 3)) 0 3 0 ⟨v0, 1, 0, []⟩
      = .ok ⟨model.gibbs model.bias (model.gibbs model.bias v0 1) 1, 1, 1,
          [(model.gibbs model.bias (model.gibbs model.bias v0 1) 1).map model.decode]⟩ ∧
    _sample_model powf false model v0 3 [2] 1 1
        (PyCallback.fn (fun s i e => .ok (f s i e))) false
      = .ok (model.gibbs model.bias (model.gibbs model.bias v0 1) 1,
          (model.gibbs model.bias (model.gibbs model.bias v0 1) 1).map model.decode) := by
  have hloop : sampleLoop model (PyCallback.fn (fun s i e => .ok (f s i e))) [2] false false
      (powf 1 (1 / 3)) 0 3 0 ⟨v0, 1, 0, []⟩
      = .ok ⟨model.gibbs model.bias (model.gibbs model.bias v0 1) 1, 1, 1,
          [(model.gibbs model.bias (model.gibbs model.bias v0 1) 1).map model.decode]⟩ := by
    rw [hpow]
    simp [sampleLoop, loopBody, gibbsStep, temp_update, pyGet, callCallback,
      Except.instMonad, Except.bind, Bind.bind, List.get?]
  refine ⟨hloop, ?_⟩
  have hfrac : pydiv 1 1 = Except.ok (1 : ℚ) := by norm_num [pydiv]
  have hinv : pydiv 1 (((3 : ℤ) : ℚ)) = Except.ok ((1 : ℚ) / 3) := by
    norm_num [pydiv]
  have hdelta : pydiv (1 - 1) (((3 : ℤ) : ℚ)) = Except.ok (0 : ℚ) := by
    norm_num [pydiv]
  simp only [_sample_model, hfrac, hinv, hdelta, Except.instMonad, Except.bind,
    Bind.bind]
  rw [show ((3 : ℤ).toNat) = 3 from rfl, hloop]
  simp [pyLast, Except.instMonad, Except.bind, Bind.bind]

/-- Closed witness for C2: the concrete model `mmW` (whose transition
operator adds 1 to each entry), a single starting row of zeros, the
constant power function and a constant callback. -/
theorem C2_witness :
    sampleLoop mmW (PyCallback.fn (fun _ _ _ => .ok "r")) [2] false false 1 0 3 0
        ⟨[[0, 0, 0, 0]], 1, 0, []⟩
      = .ok ⟨[[2, 2, 2, 2]], 1, 1, [["d"]]⟩ ∧
    _sample_model (fun _ _ => 1) false mmW [[0, 0, 0, 0]] 3 [2] 1 1
        (PyCallback.fn (fun _ _ _ => .ok "r")) false
      = .ok ([[2, 2, 2, 2]], ["d"]) := by
  have h := C2_checkpoint_loop_semantics mmW [[0, 0, 0, 0]] (fun _ _ => 1)
    (fun _ _ _ => "r") rfl
  have e1 : mmW.gibbs mmW.bias (mmW.gibbs mmW.bias [[0, 0, 0, 0]] 1) 1
      = [[2, 2, 2, 2]] := by norm_num [mmW]
  rw [e1] at h
  have e2 : ([[(2 : ℚ), 2, 2, 2]]).map mmW.decode = ["d"] := by simp [mmW]
  rw [e2] at h
  exact h

/-- C8: under the linear-decay policy (`LINEAR_ANNEAL` true) the sequence
of loop temperatures is arithmetic with common difference
`(final_temp - start_temp) / iters` as computed by the schedule: iterating
the loop's `temp_update` `i` times from `start_temp` yields
`start_temp + i * (final_temp - start_temp) / iters`; each `gibbsStep` of
the loop advances the temperature by exactly that difference; and when
`start_temp = final_temp` the temperature is constant. -/
theorem C8_linear_anneal_arithmetic (start_temp final_temp : ℚ) (iters : ℤ)
    (temp_decay d : ℚ) (i : ℕ)
    (hd : pydiv (final_temp - start_temp) ((iters : ℚ)) = .ok d) :
    (temp_update true temp_decay d)^[i] start_temp
      = start_temp + i * ((final_temp - start_temp) / ((iters : ℚ))) ∧
    (∀ (model : PModel) (st : LoopState),
      (gibbsStep model true temp_decay d st).temp
        = st.temp + (final_temp - start_temp) / ((iters : ℚ))) ∧
    (start_temp = final_temp →
      (temp_update true temp_decay d)^[i] start_temp = start_temp) := by
  have hne : ((iters : ℚ)) ≠ 0 := by
    intro h
    simp [pydiv, h] at hd
  have hdval : d = (final_temp - start_temp) / ((iters : ℚ)) := by
    simp [pydiv, hne] at hd
    exact hd.symm
  have hiter : ∀ j : ℕ, (temp_update true temp_decay d)^[j] start_temp
      = start_temp + j * d := by
    intro j
    induction j with
    | zero => simp
    | succ k ih =>
      rw [Function.iterate_succ_apply', ih]
      simp only [temp_update, if_pos rfl, if_true]
      push_cast
      ring
  refine ⟨?_, ?_, ?_⟩
  · rw [hiter i, hdval]
  · intro model st
    simp [gibbsStep, temp_update, hdval]
  · intro hsf
    rw [hiter i, hdval, hsf]
    simp

/-- Closed witness for C8 at `start_temp = 2`, `final_temp = 5`,
`iters = 3` (so the common difference is 1), two iterations. -/
theorem C8_witness :
    (temp_update true 0 1)^[2] 2
      = 2 + ((2 : ℕ) : ℚ) * ((5 - 2) / (((3 : ℤ) : ℚ))) ∧
    (∀ (model : PModel) (st : LoopState),
      (gibbsStep model true 0 1 st).temp = st.temp + (5 - 2) / (((3 : ℤ) : ℚ))) ∧
    ((2 : ℚ) = 5 → (temp_update true 0 1)^[2] 2 = 2) :=
  C8_linear_anneal_arithmetic 2 5 3 0 1 2 (by norm_num [pydiv])

/-- C9: the `spaces` strategy on a codec whose alphabet lacks the space
character, and the `padding` strategy on a codec whose alphabet lacks its
own filler symbol, both fail with `BadInitMethodException` whose message
names the missing symbol — the raw dictionary `KeyError` is caught and
re-raised as this configuration error. -/
theorem C9_missing_fill_symbol_raises (env : InitEnv) (n : ℕ) (model : PModel)
    (fname : Option String) :
    (model.codec.char_lookup ' ' = none →
      starting_visible_configs env VisInit.spaces n model fname
        = .error (.badInitMethod (' '.toString ++ " is not in model alphabet"))) ∧
    (model.codec.char_lookup model.codec.filler = none →
      starting_visible_configs env VisInit.padding n model fname
        = .error (.badInitMethod
            (model.codec.filler.toString ++ " is not in model alphabet"))) := by
  constructor
  · intro h
    simp [starting_visible_configs, h]
  · intro h
    simp [starting_visible_configs, h]

/-- Closed witness for C9 on the empty-alphabet codec. -/
theorem C9_witness :
    starting_visible_configs envW VisInit.spaces 3 emptyCodecModel none
      = .error (.badInitMethod (' '.toString ++ " is not in model alphabet")) ∧
    starting_visible_configs envW VisInit.padding 3 emptyCodecModel none
      = .error (.badInitMethod ('z'.toString ++ " is not in model alphabet")) :=
  ⟨(C9_missing_fill_symbol_raises envW 3 emptyCodecModel none).1 rfl,
   (C9_missing_fill_symbol_raises envW 3 emptyCodecModel none).2 rfl⟩

/-- When no entry of `sample_iter_indices` lies in `[0, iters)`, the loop
never records: every iteration compares `i` against the first entry,
misses, applies the transition, and leaves `next_sample_metaindex = 0`
and `samples = []`. -/
lemma sampleLoop_no_checkpoint_hit (model : PModel) (cb : PyCallback)
    (indices : List ℤ) (se la : Bool) (decay delta : ℚ) (iters : ℤ)
    (hind : ∀ x ∈ indices, ¬(0 ≤ x ∧ x < iters)) (x0 : ℤ)
    (hx0 : indices.get? 0 = some x0) :
    ∀ (fuel : ℕ) (i : ℤ) (vis : List (List ℚ)) (temp : ℚ),
      0 ≤ i → i + fuel ≤ iters →
      ∃ visf tempf, sampleLoop model cb indices se la decay delta fuel i
        ⟨vis, temp, 0, []⟩ = .ok ⟨visf, tempf, 0, []⟩ := by
  intro fuel
  induction fuel with
  | zero =>
    intro i vis temp _ _
    exact ⟨vis, temp, rfl⟩
  | succ k ih =>
    intro i vis temp h0 hle
    have hx0mem : x0 ∈ indices := List.get?_mem hx0
    have hne : i ≠ x0 := by
      intro h
      exact hind x0 hx0mem ⟨h ▸ h0, by omega⟩
    have hstep : sampleLoop model cb indices se la decay delta (k + 1) i
        ⟨vis, temp, 0, []⟩
        = sampleLoop model cb indices se la decay delta k (i + 1)
          ⟨model.gibbs model.bias vis temp,
            temp_update la decay delta temp, 0, []⟩ := by
      have hx0' : indices[0]? = some x0 := by
        simpa [List.get?_eq_getElem?] using hx0
      simp [sampleLoop, loopBody, pyGet, hx0', hne, gibbsStep,
        Except.instMonad, Except.bind, Bind.bind]
    rw [hstep]
    exact ih (i + 1) _ _ (by omega) (by omega)

/-- C10 (counterexample to the claim as stated): with `iters = 0` the
condition "no element of `sample_iter_indices` lies in `[0, iters)`" holds
vacuously (here `sample_iter_indices = [3]`), yet `_sample_model` fails
with `ZeroDivisionError` from the schedule computation, not with an
out-of-range indexing error. -/
theorem C10_counterexample :
    _sample_model (fun _ _ => 1) false mmW [[0, 0, 0, 0]] 0 [3] 1 1
      PyCallback.zeroArg false = .error .zeroDivisionError ∧
    PyError.zeroDivisionError ≠ PyError.indexError :=
  ⟨rfl, by decide⟩

/-- C10 (amended): provided `iters >= 1` and `start_temp` is nonzero (so
the schedule divisions succeed), if `sample_iter_indices` is empty or none
of its entries lies in `[0, iters)`, then `_sample_model` does not return
a result: it raises `IndexError` — from `sample_iter_indices[0]` on the
empty list at the first iteration, or from `samples[-1]` on the empty
sample list after the loop exhausts all `iters` iterations. -/
theorem C10_no_reachable_checkpoint_raises (powf : ℚ → ℚ → ℚ) (la : Bool)
    (model : PModel) (vis : List (List ℚ)) (iters : ℤ) (indices : List ℤ)
    (start_temp final_temp : ℚ) (cb : PyCallback) (se : Bool)
    (hs : start_temp ≠ 0) (hi : 1 ≤ iters)
    (hind : indices = [] ∨ ∀ x ∈ indices, ¬(0 ≤ x ∧ x < iters)) :
    _sample_model powf la model vis iters indices start_temp final_temp cb se
      = .error .indexError := by
  have h0 : ((iters : ℚ)) ≠ 0 := by
    simpa using (by omega : iters ≠ 0)
  obtain ⟨k, hk⟩ := Nat.exists_eq_succ_of_ne_zero
    (by omega : iters.toNat ≠ 0)
  match indices, hind with
  | [], _ =>
      simp [_sample_model, pydiv, hs, h0, hk, sampleLoop, loopBody, pyGet,
        Except.instMonad, Except.bind, Bind.bind]
  | x0 :: rest, hind =>
      have hind' : ∀ x ∈ x0 :: rest, ¬(0 ≤ x ∧ x < iters) := by
        rcases hind with h | h
        · cases h
        · exact h
      obtain ⟨visf, tempf, hloop⟩ := sampleLoop_no_checkpoint_hit model cb
        (x0 :: rest) se la (powf (final_temp / start_temp) (1 / (iters : ℚ)))
        ((final_temp - start_temp) / (iters : ℚ)) iters hind' x0 rfl
        iters.toNat 0 vis start_temp (by omega) (by omega)
      simp only [_sample_model, pydiv, hs, h0, if_false,
        Except.instMonad, Except.bind, Bind.bind, ite_false]
      rw [hloop]
      simp [pyLast]

/-- Closed witness for the amended C10: `iters = 3` with the single
checkpoint index 5, which is never reached. -/
theorem C10_witness :
    _sample_model (fun _ _ => 1) false mmW [[0, 0, 0, 0]] 3 [5] 1 1
      PyCallback.zeroArg false = .error .indexError :=
  C10_no_reachable_checkpoint_raises (fun _ _ => 1) false mmW [[0, 0, 0, 0]]
    3 [5] 1 1 PyCallback.zeroArg false (by norm_num) (by norm_num)
    (Or.inr (by decide))

/-! ### Helper lemmas for one-hot rows and flattened batches -/

lemma onehot_length (nchars fill : ℕ) : (onehot nchars fill).length = nchars := by
  simp [onehot]

lemma onehot_sum (nchars : ℕ) : ∀ fill : ℕ, fill < nchars →
    (onehot nchars fill).sum = 1 := by
  induction nchars with
  | zero => intro fill h; omega
  | succ m ih =>
    intro fill h
    unfold onehot
    rw [List.range_succ, List.map_append, List.sum_append]
    by_cases hf : fill = m
    · subst hf
      have hz : ((List.range fill).map
          (fun j => if j = fill then (1 : ℚ) else 0)).sum = 0 :=
        List.sum_eq_zero (by
          intro x hx
          obtain ⟨j, hj, rfl⟩ := List.mem_map.mp hx
          simp [Nat.ne_of_lt (List.mem_range.mp hj)])
      simp [hz]
    · have hflt : fill < m := by omega
      have hm := ih fill hflt
      unfold onehot at hm
      rw [hm]
      simp [Ne.symm hf]

lemma flatten_slice (c : ℕ) :
    ∀ (L : List (List ℚ)) (p : ℕ) (hp : p < L.length),
      (∀ l ∈ L, l.length = c) → (L.flatten.drop (c * p)).take c = L[p] := by
  intro L
  induction L with
  | nil =>
    intro p hp
    exact absurd hp (Nat.not_lt_zero p)
  | cons a t ih =>
    intro p hp hall
    have ha : a.length = c := hall a (List.mem_cons_self a t)
    cases p with
    | zero =>
      simp only [Nat.mul_zero, List.drop_zero, List.flatten_cons,
        List.getElem_cons_zero]
      exact List.take_left' ha
    | succ q =>
      have hq : q < t.length := by
        simpa using Nat.lt_of_succ_lt_succ (by simpa using hp)
      have hsplit : c * (q + 1) = a.length + c * q := by
        rw [ha]; ring
      rw [List.flatten_cons, hsplit, ← List.drop_drop, List.drop_left,
        List.getElem_cons_succ]
      exact ih q hq (fun l hl => hall l (List.mem_cons_of_mem a hl))

lemma range_map_flatten_length (nchars maxlen : ℕ) (F : ℕ → List ℚ)
    (hF : ∀ q, (F q).length = nchars) :
    ((List.range maxlen).map F).flatten.length = maxlen * nchars := by
  rw [List.length_flatten, List.map_map]
  have h1 : (List.range maxlen).map (List.length ∘ F)
      = (List.range maxlen).map (fun _ => nchars) :=
    List.map_congr_left (fun a _ => hF a)
  rw [h1, List.map_const', List.sum_replicate, smul_eq_mul, List.length_range]

lemma range_map_flatten_slice (nchars maxlen : ℕ) (F : ℕ → List ℚ)
    (hF : ∀ q, (F q).length = nchars) (p : ℕ) (hp : p < maxlen) :
    (((List.range maxlen).map F).flatten.drop (nchars * p)).take nchars = F p := by
  have hlen : p < ((List.range maxlen).map F).length := by simpa using hp
  rw [flatten_slice nchars _ p hlen (by
    intro l hl
    obtain ⟨q, _, rfl⟩ := List.mem_map.mp hl
    exact hF q)]
  simp

/-- C7: every `starting_visible_configs` strategy returns a batch of `n`
rows of length `maxlen * nchars`, and for the `spaces`, `padding`,
`chunks` (filler-truncated positions included) and `uniform_chars`
strategies every width-`nchars` position slice of every row sums to
exactly 1 (a valid one-hot vector).  Assumed external contracts: the
model invariant `intercept_visible_.shape[0] = maxlen * nchars`;
dictionary hits with in-range indices for the space and filler symbols;
in-range `np.random.randint(0, nchars)` draws; and the shape contracts of
`utils.softmax_and_sample` and `utils.vectors_from_txtfile`
(spec-modelled: the `utils` module is outside `sampling.py`). -/
theorem C7_starting_visible_configs_shape_and_onehot
    (env : InitEnv) (model : PModel) (n : ℕ) (fn : String) (im : VisInit)
    (hnvis : model.nvis = model.codec.maxlen * model.codec.nchars)
    (hsp : ∃ sp, model.codec.char_lookup ' ' = some sp ∧ sp < model.codec.nchars)
    (hpd : ∃ fl, model.codec.char_lookup model.codec.filler = some fl ∧
      fl < model.codec.nchars)
    (hrc : ∀ r p, env.randchars r p < model.codec.nchars)
    (hsm : ∀ t : List (List (List ℚ)), t.length = n →
      (∀ s ∈ t, s.length = model.codec.maxlen ∧
        ∀ pv ∈ s, pv.length = model.codec.nchars) →
      (env.softmax_and_sample t).length = n ∧
        ∀ s ∈ env.softmax_and_sample t, s.length = model.codec.maxlen ∧
          ∀ pv ∈ s, pv.length = model.codec.nchars)
    (htr : ∀ b : Bool, (env.vectors_from_txtfile fn n b).length = n ∧
      ∀ r ∈ env.vectors_from_txtfile fn n b,
        r.length = model.codec.maxlen * model.codec.nchars) :
    ∃ rows, starting_visible_configs env im n model (some fn) = .ok rows ∧
      rows.length = n ∧
      (∀ r ∈ rows, r.length = model.codec.maxlen * model.codec.nchars) ∧
      ((im = VisInit.spaces ∨ im = VisInit.padding ∨ im = VisInit.chunks ∨
          im = VisInit.uniform_chars) →
        ∀ r ∈ rows, ∀ p, p < model.codec.maxlen →
          ((r.drop (model.codec.nchars * p)).take model.codec.nchars).sum = 1) := by
  cases im with
  | zeros =>
    refine ⟨_, rfl, by simp, ?_, ?_⟩
    · intro r hr
      rw [List.eq_of_mem_replicate hr]
      simp [hnvis]
    · rintro (h | h | h | h) <;> exact absurd h (by decide)
  | biases =>
    have hshape : ∀ s ∈ List.replicate n
        ((List.range model.codec.maxlen).map (fun p =>
          (List.range model.codec.nchars).map
            (fun c => model.bias (model.codec.nchars * p + c)))),
        s.length = model.codec.maxlen ∧
          ∀ pv ∈ s, pv.length = model.codec.nchars := by
      intro s hs
      rw [List.eq_of_mem_replicate hs]
      refine ⟨by simp, ?_⟩
      intro pv hpv
      obtain ⟨p, _, rfl⟩ := List.mem_map.mp hpv
      simp
    obtain ⟨hlen, hrows⟩ := hsm _ (by simp) hshape
    refine ⟨_, rfl, by simpa using hlen, ?_, ?_⟩
    · intro r hr
      obtain ⟨s, hs, rfl⟩ := List.mem_map.mp hr
      obtain ⟨hslen, hpv⟩ := hrows s hs
      rw [List.length_flatten]
      have h1 : s.map List.length = s.map (fun _ => model.codec.nchars) :=
        List.map_congr_left (fun pv hpv' => hpv pv hpv')
      rw [h1, List.map_const', List.sum_replicate, smul_eq_mul, hslen]
    · rintro (h | h | h | h) <;> exact absurd h (by decide)
  | uniform =>
    refine ⟨_, rfl, by simp, ?_, ?_⟩
    · intro r hr
      obtain ⟨q, _, rfl⟩ := List.mem_map.mp hr
      simp [hnvis]
    · rintro (h | h | h | h) <;> exact absurd h (by decide)
  | spaces =>
    obtain ⟨sp, hspl, hsplt⟩ := hsp
    have heq : starting_visible_configs env VisInit.spaces n model (some fn)
        = .ok (List.replicate n
            (((List.range model.codec.maxlen).map
              (fun _ => onehot model.codec.nchars sp)).flatten)) := by
      simp [starting_visible_configs, hspl]
    refine ⟨_, heq, by simp, ?_, ?_⟩
    · intro r hr
      rw [List.eq_of_mem_replicate hr]
      exact range_map_flatten_length _ _ _ (fun q => onehot_length _ _)
    · intro _ r hr p hp
      rw [List.eq_of_mem_replicate hr,
        range_map_flatten_slice _ _ _ (fun q => onehot_length _ _) p hp]
      exact onehot_sum _ sp hsplt
  | padding =>
    obtain ⟨fl, hfll, hfllt⟩ := hpd
    have heq : starting_visible_configs env VisInit.padding n model (some fn)
        = .ok (List.replicate n
            (((List.range model.codec.maxlen).map
              (fun _ => onehot model.codec.nchars fl)).flatten)) := by
      simp [starting_visible_configs, hfll]
    refine ⟨_, heq, by simp, ?_, ?_⟩
    · intro r hr
      rw [List.eq_of_mem_replicate hr]
      exact range_map_flatten_length _ _ _ (fun q => onehot_length _ _)
    · intro _ r hr p hp
      rw [List.eq_of_mem_replicate hr,
        range_map_flatten_slice _ _ _ (fun q => onehot_length _ _) p hp]
      exact onehot_sum _ fl hfllt
  | train =>
    obtain ⟨hlen, hrows⟩ := htr (decide (VisInit.train = VisInit.silhouettes))
    exact ⟨_, rfl, hlen, hrows,
      by rintro (h | h | h | h) <;> exact absurd h (by decide)⟩
  | silhouettes =>
    obtain ⟨hlen, hrows⟩ := htr (decide (VisInit.silhouettes = VisInit.silhouettes))
    exact ⟨_, rfl, hlen, hrows,
      by rintro (h | h | h | h) <;> exact absurd h (by decide)⟩
  | chunks =>
    obtain ⟨fl, hfll, hfllt⟩ := hpd
    have heq : starting_visible_configs env VisInit.chunks n model (some fn)
        = .ok ((List.range n).map (fun r =>
            ((List.range model.codec.maxlen).map (fun p =>
              onehot model.codec.nchars
                (if env.lengths r ≤ p then fl else env.randchars r p))).flatten)) := by
      simp [starting_visible_configs, hfll]
    refine ⟨_, heq, by simp, ?_, ?_⟩
    · intro r hr
      obtain ⟨q, _, rfl⟩ := List.mem_map.mp hr
      exact range_map_flatten_length _ _ _ (fun p => onehot_length _ _)
    · intro _ r hr p hp
      obtain ⟨q, _, rfl⟩ := List.mem_map.mp hr
      rw [range_map_flatten_slice _ _ _ (fun p' => onehot_length _ _) p hp]
      by_cases hl : env.lengths q ≤ p
      · rw [if_pos hl]
        exact onehot_sum _ fl hfllt
      · rw [if_neg hl]
        exact onehot_sum _ _ (hrc q p)
  | uniform_chars =>
    refine ⟨_, rfl, by simp, ?_, ?_⟩
    · intro r hr
      obtain ⟨q, _, rfl⟩ := List.mem_map.mp hr
      exact range_map_flatten_length _ _ _ (fun p => onehot_length _ _)
    · intro _ r hr p hp
      obtain ⟨q, _, rfl⟩ := List.mem_map.mp hr
      rw [range_map_flatten_slice _ _ _ (fun p' => onehot_length _ _) p hp]
      exact onehot_sum _ _ (hrc q p)

/-- Closed witness for C7: the `chunks` strategy on the concrete model
`mmW` and environment `envW` (2 rows, 2 positions, 2 characters). -/
theorem C7_witness :
    ∃ rows, starting_visible_configs envW VisInit.chunks 2 mmW (some "x")
        = .ok rows ∧
      rows.length = 2 ∧
      (∀ r ∈ rows, r.length = mmW.codec.maxlen * mmW.codec.nchars) ∧
      ((VisInit.chunks = VisInit.spaces ∨ VisInit.chunks = VisInit.padding ∨
          VisInit.chunks = VisInit.chunks ∨
          VisInit.chunks = VisInit.uniform_chars) →
        ∀ r ∈ rows, ∀ p, p < mmW.codec.maxlen →
          ((r.drop (mmW.codec.nchars * p)).take mmW.codec.nchars).sum = 1) :=
  C7_starting_visible_configs_shape_and_onehot envW mmW 2 "x" VisInit.chunks
    (by decide) ⟨1, by decide, by decide⟩ ⟨1, by decide, by decide⟩
    (fun _ _ => Nat.zero_lt_two) (fun t h1 h2 => ⟨h1, h2⟩)
    (fun _ => ⟨rfl, fun r hr => by rw [List.eq_of_mem_replicate hr]; decide⟩)
